import Mathlib

/-!
Verification of the `class` attribute generator (src/macros/src/lib.rs).

The generator consumes an impl block (a class declaration) and emits a
typed property/styling system: per-property key modules, a Construct
implementation, and a Set implementation (supplied or synthesized).
This file gives a shallow embedding of the generator and proves the
specified properties about it.
-/

set_option maxHeartbeats 1000000

namespace ClassGen

/-- Generic arguments of a path segment, mirroring syn GenericArgument.
A type argument is represented opaquely by its source text; the generator
never inspects the inner structure of generic argument types. -/
inductive GenericArgument where
  | type (text : String)
  | lifetime
  | constArg
deriving DecidableEq, Repr

/-- Arguments attached to a path segment, mirroring syn PathArguments. -/
inductive PathArguments where
  | noArgs
  | angleBracketed (args : List GenericArgument)
  | parenthesized
deriving DecidableEq, Repr

/-- One path segment: an identifier with optional generic arguments. -/
structure Segment where
  ident : String
  arguments : PathArguments
deriving DecidableEq, Repr

/-- The fragment of syn Type that the generator distinguishes: a path type
(with a nonempty segment list, represented head plus tail, as syn
guarantees at least one segment) versus every other type form. -/
inductive Ty where
  | path (head : Segment) (tail : List Segment)
  | reference
  | tuple
  | never
deriving DecidableEq, Repr

/-- Modelled from the spec: runtime values handled by the external Args and
StyleMap collaborators, carrying a runtime type used by the
first-positional-of-type lookup. -/
structure Val where
  ty : Ty
  data : Nat
deriving DecidableEq, Repr

/-- A per-property attribute as the generator sees it. The argument of a
fold attribute is an expression denoting a binary combinator; we embed it
as a function, with `none` standing for an argument that fails to parse. -/
inductive Attr where
  | fold (parsed : Option (Val → Val → Val))
  | shorthand
  | variadic
  | skip
  | otherAttr (name : String)

/-- A method item of the impl block: its name and an opaque body tag
(the tag only serves to tell two methods with the same name apart). -/
structure Method where
  name : String
  body : Nat
deriving DecidableEq, Repr

/-- A const item of the impl block: a property declaration. The default
expression is embedded by the value it denotes. -/
structure ConstItem where
  ident : String
  ty : Ty
  defaultVal : Val
  attrs : List Attr

/-- An item of the impl block, mirroring syn ImplItem: a const, a method,
or any other unsupported item kind. -/
inductive ImplItem where
  | const (c : ConstItem)
  | method (m : Method)
  | otherItem

/-- The impl block handed to the generator: generic parameters (opaque
names), the self type, and the ordered item list. -/
structure ItemImpl where
  params : List String
  self_ty : Ty
  items : List ImplItem

/-- The diagnostics the generator can produce. `attrParse` is the syn
parse error propagated when the argument of a fold attribute does not
parse. The remaining constructors carry the five message kinds of the
source. -/
inductive Err where
  | malformedSelfType
  | unexpectedMethod
  | unexpectedItem
  | missingConstructor
  | conflictingAttributes
  | attrParse
deriving DecidableEq, Repr

/-- The style property metadata the generator collects per const item.
The source struct has name, shorthand, variadic, skip; we additionally
record the declared value type, which the source leaves to type inference
when it emits the find fallback of the setter. -/
structure PropInfo where
  name : String
  shorthand : Bool
  variadic : Bool
  skip : Bool
  valueTy : Ty

/-- The fold block emitted into a Property implementation: the FOLDING
constant and the fold function, whose body applies the declared
combinator expression. -/
structure Folder where
  folding : Bool
  fn : Val → Val → Val

/-- The generated per-property key module: module name (the property
identifier), the arguments of the Key type (value type and self type
arguments), the owning self type, the display name string, the default
value, the optional fold block and the Nonfolding marker. -/
structure KeyModule where
  name : String
  keyArgs : Ty × List String
  selfTy : Ty
  propName : String
  defaultVal : Val
  folder : Option Folder
  nonfolding : Bool

/-- The const item after rewriting: its type becomes
moduleName::Key with the key arguments, its initializer the canonical
Key(PhantomData) value, and only unrecognized attributes are kept. -/
structure RewrittenConst where
  ident : String
  keptAttrs : List Attr
  tyModule : String
  tyKeyArgs : Ty × List String

/-- The fallback chain appended to the named lookup in one generated
setter statement: collect-all for variadic, find-by-type for shorthand,
or nothing. -/
inductive SetAlt where
  | variadicAlt
  | shorthandAlt (valueTy : Ty)
  | plain

/-- One generated setter statement:
styles.set_opt(Self::name, args.named(string)? alternative). -/
structure SetStmt where
  name : String
  string : String
  alt : SetAlt

/-- The Set implementation of the output: the explicit method when the
declaration supplies one, otherwise the generated statement list. -/
inductive SetImpl where
  | explicit (m : Method)
  | generated (stmts : List SetStmt)

/-- The expanded output: wrapper module name, self type data, rewritten
const items, the Construct method, the Set implementation, and the
per-property key modules. -/
structure Expanded where
  moduleName : String
  selfName : String
  selfArgs : List String
  rewritten : List RewrittenConst
  construct : Method
  set : SetImpl
  keyModules : List KeyModule

/-- Extract the type arguments of a segment, as the source does:
angle-bracketed arguments filtered to the type ones, anything else
yields the empty list. -/
def typeArgsOf : PathArguments → List String
  | .angleBracketed args =>
      args.filterMap fun a =>
        match a with
        | .type t => some t
        | _ => none
  | _ => []

/-- Parse the name and generic type arguments of the node type
(source function parse_self). -/
def parse_self : Ty → Except Err (String × List String)
  | .path head tail =>
      let last := tail.getLastD head
      .ok (last.ident, typeArgsOf last.arguments)
  | _ => .error Err.malformedSelfType

/-- The attribute loop of process_const: walks the attributes in order,
recording the last fold combinator (a fold argument that fails to parse
aborts immediately), setting the shorthand, variadic and skip flags, and
pushing unrecognized attributes back onto the item. -/
def attrLoop : List Attr → Option Folder → PropInfo → List Attr →
    Except Err (Option Folder × PropInfo × List Attr)
  | [], folder, p, kept => .ok (folder, p, kept)
  | a :: rest, folder, p, kept =>
      match a with
      | .fold none => .error Err.attrParse
      | .fold (some f) => attrLoop rest (some ⟨true, fun i o => f i o⟩) p kept
      | .shorthand => attrLoop rest folder { p with shorthand := true } kept
      | .variadic => attrLoop rest folder { p with variadic := true } kept
      | .skip => attrLoop rest folder { p with skip := true } kept
      | .otherAttr n => attrLoop rest folder p (kept ++ [.otherAttr n])

/-- Process a single const item (source function process_const): run the
attribute loop, reject the shorthand plus variadic combination, and build
the key module and the rewritten const. -/
def process_const (c : ConstItem) (selfTy : Ty) (selfName : String)
    (selfArgs : List String) :
    Except Err (PropInfo × KeyModule × RewrittenConst) :=
  let module_name := c.ident
  let value_ty := c.ty
  let key_args : Ty × List String := (value_ty, selfArgs)
  let name := selfName ++ "::" ++ c.ident
  let dflt := c.defaultVal
  let init : PropInfo :=
    { name := c.ident, shorthand := false, variadic := false,
      skip := false, valueTy := c.ty }
  match attrLoop c.attrs none init [] with
  | .error e => .error e
  | .ok (folder, property, kept) =>
      if property.shorthand && property.variadic then
        .error Err.conflictingAttributes
      else
        .ok (property,
             { name := module_name, keyArgs := key_args, selfTy := selfTy,
               propName := name, defaultVal := dflt, folder := folder,
               nonfolding := folder.isNone },
             { ident := c.ident, keptAttrs := kept,
               tyModule := module_name, tyKeyArgs := key_args })

/-- The state threaded through the item loop of expand. -/
structure LoopState where
  rewritten : List RewrittenConst
  properties : List PropInfo
  keyModules : List KeyModule
  construct : Option Method
  set : Option Method

/-- The initial loop state: everything empty. -/
def initState : LoopState :=
  { rewritten := [], properties := [], keyModules := [],
    construct := none, set := none }

/-- The item loop of expand: consts are processed through process_const,
methods named construct or set are captured (the later one replacing the
earlier), any other method fails with unexpectedMethod and any other item
kind with unexpectedItem. -/
def loopItems (selfTy : Ty) (selfName : String) (selfArgs : List String) :
    List ImplItem → LoopState → Except Err LoopState
  | [], s => .ok s
  | item :: rest, s =>
      match item with
      | .const c =>
          match process_const c selfTy selfName selfArgs with
          | .error e => .error e
          | .ok (p, km, rc) =>
              loopItems selfTy selfName selfArgs rest
                { s with rewritten := s.rewritten ++ [rc],
                         properties := s.properties ++ [p],
                         keyModules := s.keyModules ++ [km] }
      | .method m =>
          if m.name = "construct" then
            loopItems selfTy selfName selfArgs rest { s with construct := some m }
          else if m.name = "set" then
            loopItems selfTy selfName selfArgs rest { s with set := some m }
          else .error Err.unexpectedMethod
      | .otherItem => .error Err.unexpectedItem

/-- Replace every underscore by a dash, as the str replace call of the
source does for the one-character pattern. -/
def replaceUnderscoreDash : List Char → List Char
  | [] => []
  | c :: cs => (if c = '_' then '-' else c) :: replaceUnderscoreDash cs

/-- Lowercase every character, as the to_lowercase call of the source. -/
def lowercaseChars : List Char → List Char
  | [] => []
  | c :: cs => c.toLower :: lowercaseChars cs

/-- The named-argument string of a property: the identifier with
underscores replaced by dashes, then lowercased (the source computes
name.to_string().replace then to_lowercase). -/
def setterString (s : String) : String :=
  String.mk (lowercaseChars (replaceUnderscoreDash s.data))

/-- Generate one setter statement for a non-skipped property. -/
def genStmt (p : PropInfo) : SetStmt :=
  { name := p.name,
    string := setterString p.name,
    alt :=
      if p.variadic then SetAlt.variadicAlt
      else if p.shorthand then SetAlt.shorthandAlt p.valueTy
      else SetAlt.plain }

/-- Generate the default setter body: one statement per non-skipped
property, in declaration order. -/
def genStmts (props : List PropInfo) : List SetStmt :=
  (props.filter fun p => !p.skip).map genStmt

/-- Expand an impl block for a node (source function expand). -/
def expand (ib : ItemImpl) : Except Err Expanded :=
  match parse_self ib.self_ty with
  | .error e => .error e
  | .ok (self_name, self_args) =>
      let module := self_name ++ "_types"
      match loopItems ib.self_ty self_name self_args ib.items initState with
      | .error e => .error e
      | .ok s =>
          match s.construct with
          | none => .error Err.missingConstructor
          | some construct =>
              let set : SetImpl :=
                match s.set with
                | some m => SetImpl.explicit m
                | none => SetImpl.generated (genStmts s.properties)
              .ok { moduleName := module, selfName := self_name,
                    selfArgs := self_args, rewritten := s.rewritten,
                    construct := construct, set := set,
                    keyModules := s.keyModules }

/-! Characterization helpers used to state theorems about declarations. -/

/-- Whether a type is a path type. -/
def isPathTy : Ty → Bool
  | .path _ _ => true
  | _ => false

/-- Whether an attribute is the shorthand marker. -/
def Attr.isShorthandAttr : Attr → Bool
  | .shorthand => true
  | _ => false

/-- Whether an attribute is the variadic marker. -/
def Attr.isVariadicAttr : Attr → Bool
  | .variadic => true
  | _ => false

/-- Whether an attribute is the skip marker. -/
def Attr.isSkipAttr : Attr → Bool
  | .skip => true
  | _ => false

/-- Whether an attribute is unrecognized by the generator. -/
def Attr.isOtherAttr : Attr → Bool
  | .otherAttr _ => true
  | _ => false

/-- Whether an attribute is a fold attribute whose argument fails to
parse. -/
def Attr.isBadFold : Attr → Bool
  | .fold none => true
  | _ => false

/-- Whether an attribute list contains the shorthand marker. -/
def hasShorthand (attrs : List Attr) : Bool := attrs.any Attr.isShorthandAttr

/-- Whether an attribute list contains the variadic marker. -/
def hasVariadic (attrs : List Attr) : Bool := attrs.any Attr.isVariadicAttr

/-- Whether an attribute list contains the skip marker. -/
def hasSkip (attrs : List Attr) : Bool := attrs.any Attr.isSkipAttr

/-- The fold block resulting from an attribute list: the last
successfully parsed fold combinator wins, matching the assignment in the
attribute loop. -/
def foldAcc (attrs : List Attr) (acc : Option Folder) : Option Folder :=
  attrs.foldl
    (fun a attr =>
      match attr with
      | .fold (some f) => some ⟨true, fun i o => f i o⟩
      | _ => a)
    acc

/-- The fold block of an attribute list, starting from no folder. -/
def lastFolder (attrs : List Attr) : Option Folder := foldAcc attrs none

/-- The property metadata a const item denotes, read off its attributes. -/
def declProp (c : ConstItem) : PropInfo :=
  { name := c.ident, shorthand := hasShorthand c.attrs,
    variadic := hasVariadic c.attrs, skip := hasSkip c.attrs,
    valueTy := c.ty }

/-- The key module a const item denotes under a given self type. -/
def declKeyModule (selfTy : Ty) (selfName : String) (selfArgs : List String)
    (c : ConstItem) : KeyModule :=
  { name := c.ident, keyArgs := (c.ty, selfArgs), selfTy := selfTy,
    propName := selfName ++ "::" ++ c.ident, defaultVal := c.defaultVal,
    folder := lastFolder c.attrs, nonfolding := (lastFolder c.attrs).isNone }

/-- The rewritten const a const item denotes. -/
def declRewritten (selfArgs : List String) (c : ConstItem) : RewrittenConst :=
  { ident := c.ident, keptAttrs := c.attrs.filter Attr.isOtherAttr,
    tyModule := c.ident, tyKeyArgs := (c.ty, selfArgs) }

/-- The const items of an item list, in order. -/
def constsOf (items : List ImplItem) : List ConstItem :=
  items.filterMap fun item =>
    match item with
    | .const c => some c
    | _ => none

/-- The methods named construct of an item list, in order. -/
def constructsOf (items : List ImplItem) : List Method :=
  items.filterMap fun item =>
    match item with
    | .method m => if m.name = "construct" then some m else none
    | _ => none

/-- The methods named set of an item list, in order. -/
def setsOf (items : List ImplItem) : List Method :=
  items.filterMap fun item =>
    match item with
    | .method m => if m.name = "set" then some m else none
    | _ => none

/-- The path of the Key type generated for a key module: the
owner-derived wrapper module, the per-property module (named after the
property identifier), then the type name Key. -/
def keyPath (e : Expanded) (km : KeyModule) : List String :=
  [e.moduleName, km.name, "Key"]

/-- Whether an item is rejected by the item loop. -/
def isBadItem : ImplItem → Bool
  | .method m => !(m.name = "construct" || m.name = "set")
  | .const _ => false
  | .otherItem => true

/-- The diagnostic the item loop raises for a rejected item. -/
def unexpectedErrOf : ImplItem → Err
  | .method _ => Err.unexpectedMethod
  | _ => Err.unexpectedItem

/-! Runtime model of the external collaborators consumed by the
generated setter. -/

/-- Modelled from the spec: the Args collaborator is an argument-list
abstraction (not part of this crate) supporting named lookup, collection
of all remaining positional arguments, and first-positional-of-type
lookup. -/
structure Args where
  named : List (String × Val)
  positional : List Val
deriving DecidableEq, Repr

/-- Modelled from the spec: named lookup in the argument list. -/
def Args.namedLookup (a : Args) (s : String) : Option Val :=
  (a.named.find? fun kv => kv.1 = s).map fun kv => kv.2

/-- Modelled from the spec: collect all remaining positional arguments,
draining them from the argument list. -/
def Args.takeAll (a : Args) : List Val × Args :=
  (a.positional, { a with positional := [] })

/-- Remove the first value of the given runtime type from a list,
returning it (if any) and the remainder. -/
def findFirstOfTy : List Val → Ty → Option Val × List Val
  | [], _ => (none, [])
  | v :: vs, t =>
      if v.ty = t then (some v, vs)
      else
        let (r, rest) := findFirstOfTy vs t
        (r, v :: rest)

/-- Modelled from the spec: extract the first positional argument whose
type matches, removing it from the argument list. -/
def Args.findOfTy (a : Args) (t : Ty) : Option Val × Args :=
  let (r, rest) := findFirstOfTy a.positional t
  (r, { a with positional := rest })

/-- A value stored in the style map: a single value or the sequence
collected by a variadic fallback. -/
inductive StyleVal where
  | single (v : Val)
  | seq (vs : List Val)
deriving DecidableEq, Repr

/-- Modelled from the spec: the StyleMap collaborator, a mapping from
property keys to values. Within one declaration a property is identified
by its identifier. -/
abbrev StyleMap := List (String × StyleVal)

/-- Modelled from the spec: optional insertion; inserting nothing is a
no-op. -/
def StyleMap.setOpt (m : StyleMap) (key : String) : Option StyleVal → StyleMap
  | some v => m ++ [(key, v)]
  | none => m

/-- Run one generated setter statement: the named lookup comes first; on
a miss the variadic fallback collects all remaining positional arguments
and uses them only if nonempty, the shorthand fallback extracts the first
positional argument of the value type, and a plain statement resolves
nothing. The resolved value, if any, is written under the key of the
property. -/
def runStmt (args : Args) (styles : StyleMap) (st : SetStmt) :
    Args × StyleMap :=
  match args.namedLookup st.string with
  | some v => (args, styles.setOpt st.name (some (StyleVal.single v)))
  | none =>
      match st.alt with
      | SetAlt.variadicAlt =>
          let (list, args2) := args.takeAll
          (args2,
           styles.setOpt st.name
             (if list.isEmpty then none else some (StyleVal.seq list)))
      | SetAlt.shorthandAlt t =>
          let (r, args2) := args.findOfTy t
          (args2, styles.setOpt st.name (r.map StyleVal.single))
      | SetAlt.plain => (args, styles.setOpt st.name none)

/-- Run the whole generated setter: the statements in order, threading
the argument list and the style map. -/
def runSet (stmts : List SetStmt) (args : Args) (styles : StyleMap) :
    Args × StyleMap :=
  stmts.foldl (fun p st => runStmt p.1 p.2 st) (args, styles)

/-! Characterization lemmas for the attribute loop. -/

lemma attrLoop_ok_char (attrs : List Attr) :
    ∀ (folder : Option Folder) (p : PropInfo) (kept : List Attr)
      (f2 : Option Folder) (p2 : PropInfo) (kept2 : List Attr),
      attrLoop attrs folder p kept = .ok (f2, p2, kept2) →
      f2 = foldAcc attrs folder
      ∧ p2 = { p with shorthand := p.shorthand || hasShorthand attrs,
                      variadic := p.variadic || hasVariadic attrs,
                      skip := p.skip || hasSkip attrs }
      ∧ kept2 = kept ++ attrs.filter Attr.isOtherAttr := by
  induction attrs with
  | nil =>
      intro folder p kept f2 p2 kept2 h
      simp only [attrLoop, Except.ok.injEq, Prod.mk.injEq] at h
      obtain ⟨h1, h2, h3⟩ := h
      refine ⟨h1.symm, ?_, by simp [h3.symm]⟩
      simp [foldAcc, hasShorthand, hasVariadic, hasSkip, h2.symm]
  | cons a rest ih =>
      intro folder p kept f2 p2 kept2 h
      cases a with
      | fold o =>
          cases o with
          | none => simp [attrLoop] at h
          | some f =>
              obtain ⟨h1, h2, h3⟩ := ih _ _ _ _ _ _ h
              refine ⟨by simpa [foldAcc] using h1, ?_,
                by simpa [Attr.isOtherAttr] using h3⟩
              simp [h2, hasShorthand, hasVariadic, hasSkip,
                Attr.isShorthandAttr, Attr.isVariadicAttr, Attr.isSkipAttr]
      | shorthand =>
          obtain ⟨h1, h2, h3⟩ := ih _ _ _ _ _ _ h
          refine ⟨by simpa [foldAcc] using h1, ?_,
            by simpa [Attr.isOtherAttr] using h3⟩
          simp [h2, hasShorthand, hasVariadic, hasSkip,
            Attr.isShorthandAttr, Attr.isVariadicAttr, Attr.isSkipAttr]
      | variadic =>
          obtain ⟨h1, h2, h3⟩ := ih _ _ _ _ _ _ h
          refine ⟨by simpa [foldAcc] using h1, ?_,
            by simpa [Attr.isOtherAttr] using h3⟩
          simp [h2, hasShorthand, hasVariadic, hasSkip,
            Attr.isShorthandAttr, Attr.isVariadicAttr, Attr.isSkipAttr]
      | skip =>
          obtain ⟨h1, h2, h3⟩ := ih _ _ _ _ _ _ h
          refine ⟨by simpa [foldAcc] using h1, ?_,
            by simpa [Attr.isOtherAttr] using h3⟩
          simp [h2, hasShorthand, hasVariadic, hasSkip,
            Attr.isShorthandAttr, Attr.isVariadicAttr, Attr.isSkipAttr]
      | otherAttr nm =>
          obtain ⟨h1, h2, h3⟩ := ih _ _ _ _ _ _ h
          refine ⟨by simpa [foldAcc] using h1, ?_,
            by simpa [Attr.isOtherAttr] using h3⟩
          simp [h2, hasShorthand, hasVariadic, hasSkip,
            Attr.isShorthandAttr, Attr.isVariadicAttr, Attr.isSkipAttr]

lemma attrLoop_ok_of_goodAttrs (attrs : List Attr) :
    ∀ (folder : Option Folder) (p : PropInfo) (kept : List Attr),
      (∀ a ∈ attrs, a.isBadFold = false) →
      ∃ out, attrLoop attrs folder p kept = .ok out := by
  induction attrs with
  | nil => intro folder p kept _; exact ⟨_, rfl⟩
  | cons a rest ih =>
      intro folder p kept hgood
      have hrest : ∀ a ∈ rest, a.isBadFold = false := by
        intro x hx; exact hgood x (List.mem_cons_of_mem _ hx)
      cases a with
      | fold o =>
          cases o with
          | none =>
              have := hgood (.fold none) (List.mem_cons_self _ _)
              simp [Attr.isBadFold] at this
          | some f => simpa [attrLoop] using ih _ _ _ hrest
      | shorthand => simpa [attrLoop] using ih _ _ _ hrest
      | variadic => simpa [attrLoop] using ih _ _ _ hrest
      | skip => simpa [attrLoop] using ih _ _ _ hrest
      | otherAttr nm => simpa [attrLoop] using ih _ _ _ hrest

lemma attrLoop_badFold (attrs : List Attr) :
    ∀ (folder : Option Folder) (p : PropInfo) (kept : List Attr),
      (∃ a ∈ attrs, a.isBadFold = true) →
      attrLoop attrs folder p kept = .error Err.attrParse := by
  induction attrs with
  | nil => intro _ _ _ h; simp at h
  | cons a rest ih =>
      intro folder p kept h
      obtain ⟨b, hb, hbad⟩ := h
      cases a with
      | fold o =>
          cases o with
          | none => simp [attrLoop]
          | some f =>
              rcases List.mem_cons.mp hb with hb | hb
              · rw [hb] at hbad; simp [Attr.isBadFold] at hbad
              · exact (by simpa [attrLoop] using ih _ _ _ ⟨b, hb, hbad⟩)
      | shorthand =>
          rcases List.mem_cons.mp hb with hb | hb
          · rw [hb] at hbad; simp [Attr.isBadFold] at hbad
          · exact (by simpa [attrLoop] using ih _ _ _ ⟨b, hb, hbad⟩)
      | variadic =>
          rcases List.mem_cons.mp hb with hb | hb
          · rw [hb] at hbad; simp [Attr.isBadFold] at hbad
          · exact (by simpa [attrLoop] using ih _ _ _ ⟨b, hb, hbad⟩)
      | skip =>
          rcases List.mem_cons.mp hb with hb | hb
          · rw [hb] at hbad; simp [Attr.isBadFold] at hbad
          · exact (by simpa [attrLoop] using ih _ _ _ ⟨b, hb, hbad⟩)
      | otherAttr nm =>
          rcases List.mem_cons.mp hb with hb | hb
          · rw [hb] at hbad; simp [Attr.isBadFold] at hbad
          · exact (by simpa [attrLoop] using ih _ _ _ ⟨b, hb, hbad⟩)

/-! Characterization lemmas for process_const. -/

lemma process_const_ok_char (c : ConstItem) (selfTy : Ty) (selfName : String)
    (selfArgs : List String) (p : PropInfo) (km : KeyModule)
    (rc : RewrittenConst)
    (h : process_const c selfTy selfName selfArgs = .ok (p, km, rc)) :
    p = declProp c ∧ km = declKeyModule selfTy selfName selfArgs c
      ∧ rc = declRewritten selfArgs c := by
  simp only [process_const] at h
  split at h
  · simp at h
  case _ f2 p2 kept2 heq =>
    obtain ⟨h1, h2, h3⟩ := attrLoop_ok_char c.attrs _ _ _ _ _ _ heq
    split at h
    · simp at h
    · simp only [Except.ok.injEq, Prod.mk.injEq] at h
      obtain ⟨hp, hkm, hrc⟩ := h
      subst hp hkm hrc
      refine ⟨?_, ?_, ?_⟩
      · simp [h2, declProp]
      · simp [declKeyModule, h1, lastFolder]
      · simp [declRewritten, h3]

lemma process_const_conflict (c : ConstItem) (selfTy : Ty) (selfName : String)
    (selfArgs : List String)
    (hsh : hasShorthand c.attrs = true) (hva : hasVariadic c.attrs = true)
    (hgood : ∀ a ∈ c.attrs, a.isBadFold = false) :
    process_const c selfTy selfName selfArgs = .error Err.conflictingAttributes := by
  simp only [process_const]
  obtain ⟨⟨f2, p2, kept2⟩, hA⟩ :=
    attrLoop_ok_of_goodAttrs c.attrs none
      { name := c.ident, shorthand := false, variadic := false,
        skip := false, valueTy := c.ty } [] hgood
  obtain ⟨_, h2, _⟩ := attrLoop_ok_char c.attrs _ _ _ _ _ _ hA
  have hb : (p2.shorthand && p2.variadic) = true := by
    simp [h2, hsh, hva]
  simp [hA, hb]

lemma process_const_badFold (c : ConstItem) (selfTy : Ty) (selfName : String)
    (selfArgs : List String)
    (hbad : ∃ a ∈ c.attrs, a.isBadFold = true) :
    process_const c selfTy selfName selfArgs = .error Err.attrParse := by
  simp only [process_const]
  rw [attrLoop_badFold c.attrs _ _ _ hbad]

/-! Characterization lemmas for the item loop. -/

/-- The Construct method tracked by the item loop: the last method named
construct of the item list, or the accumulator if none occurs. -/
def lastConstruct (items : List ImplItem) (acc : Option Method) : Option Method :=
  items.foldl
    (fun a item =>
      match item with
      | .method m => if m.name = "construct" then some m else a
      | _ => a)
    acc

/-- The Set method tracked by the item loop: the last method named set of
the item list, or the accumulator if none occurs. -/
def lastSet (items : List ImplItem) (acc : Option Method) : Option Method :=
  items.foldl
    (fun a item =>
      match item with
      | .method m => if m.name = "set" then some m else a
      | _ => a)
    acc

lemma loopItems_append (selfTy : Ty) (selfName : String)
    (selfArgs : List String) (l1 l2 : List ImplItem) :
    ∀ s : LoopState,
      loopItems selfTy selfName selfArgs (l1 ++ l2) s =
        match loopItems selfTy selfName selfArgs l1 s with
        | .ok s1 => loopItems selfTy selfName selfArgs l2 s1
        | .error e => .error e := by
  induction l1 with
  | nil => intro s; simp [loopItems]
  | cons item rest ih =>
      intro s
      cases item with
      | const c =>
          rcases hpc : process_const c selfTy selfName selfArgs with e | out
          · simp [loopItems, hpc]
          · obtain ⟨p, km, rc⟩ := out
            simp [loopItems, hpc, ih]
      | method m =>
          by_cases hcon : m.name = "construct"
          · simp [loopItems, hcon, ih]
          · by_cases hset : m.name = "set"
            · simp [loopItems, hcon, hset, ih]
            · simp [loopItems, hcon, hset]
      | otherItem => simp [loopItems]

lemma loopItems_ok_char (selfTy : Ty) (selfName : String)
    (selfArgs : List String) (items : List ImplItem) :
    ∀ s s2 : LoopState,
      loopItems selfTy selfName selfArgs items s = .ok s2 →
      s2.rewritten = s.rewritten ++ (constsOf items).map (declRewritten selfArgs)
      ∧ s2.properties = s.properties ++ (constsOf items).map declProp
      ∧ s2.keyModules =
          s.keyModules ++ (constsOf items).map (declKeyModule selfTy selfName selfArgs)
      ∧ s2.construct = lastConstruct items s.construct
      ∧ s2.set = lastSet items s.set := by
  induction items with
  | nil =>
      intro s s2 h
      simp only [loopItems, Except.ok.injEq] at h
      subst h
      simp [constsOf, lastConstruct, lastSet]
  | cons item rest ih =>
      intro s s2 h
      cases item with
      | const c =>
          rcases hpc : process_const c selfTy selfName selfArgs with e | out
          · rw [loopItems, hpc] at h; simp at h
          · obtain ⟨p, km, rc⟩ := out
            rw [loopItems, hpc] at h
            obtain ⟨hp, hkm, hrc⟩ :=
              process_const_ok_char c selfTy selfName selfArgs p km rc hpc
            subst hp hkm hrc
            obtain ⟨g1, g2, g3, g4, g5⟩ := ih _ _ h
            refine ⟨?_, ?_, ?_, ?_, ?_⟩
            · simpa [constsOf] using g1
            · simpa [constsOf] using g2
            · simpa [constsOf] using g3
            · simpa [lastConstruct] using g4
            · simpa [lastSet] using g5
      | method m =>
          by_cases hcon : m.name = "construct"
          · rw [loopItems, if_pos hcon] at h
            obtain ⟨g1, g2, g3, g4, g5⟩ := ih _ _ h
            refine ⟨by simpa [constsOf] using g1, by simpa [constsOf] using g2,
              by simpa [constsOf] using g3, ?_, ?_⟩
            · simpa [lastConstruct, hcon] using g4
            · have hset : m.name ≠ "set" := by rw [hcon]; decide
              simpa [lastSet, hset] using g5
          · by_cases hset : m.name = "set"
            · rw [loopItems, if_neg hcon, if_pos hset] at h
              obtain ⟨g1, g2, g3, g4, g5⟩ := ih _ _ h
              refine ⟨by simpa [constsOf] using g1, by simpa [constsOf] using g2,
                by simpa [constsOf] using g3, ?_, ?_⟩
              · simpa [lastConstruct, hcon] using g4
              · simpa [lastSet, hset] using g5
            · rw [loopItems, if_neg hcon, if_neg hset] at h
              simp at h
      | otherItem => rw [loopItems] at h; simp at h

lemma lastConstruct_eq_getLast (items : List ImplItem) :
    ∀ acc : Option Method,
      lastConstruct items acc =
        match (constructsOf items).getLast? with
        | some m => some m
        | none => acc := by
  induction items with
  | nil => intro acc; simp [lastConstruct, constructsOf]
  | cons item rest ih =>
      intro acc
      cases item with
      | const c =>
          have step : lastConstruct (ImplItem.const c :: rest) acc =
              lastConstruct rest acc := rfl
          rw [step, ih acc]
          simp [constsOf, constructsOf]
      | method m =>
          by_cases hm : m.name = "construct"
          · have step : lastConstruct (ImplItem.method m :: rest) acc =
                lastConstruct rest (some m) := by
              simp [lastConstruct, hm]
            rw [step, ih (some m)]
            have hcons : constructsOf (ImplItem.method m :: rest) =
                m :: constructsOf rest := by
              simp [constructsOf, hm]
            rw [hcons, List.getLast?_cons]
            cases (constructsOf rest).getLast? <;> simp
          · have step : lastConstruct (ImplItem.method m :: rest) acc =
                lastConstruct rest acc := by
              simp [lastConstruct, hm]
            have hcons : constructsOf (ImplItem.method m :: rest) =
                constructsOf rest := by
              simp [constructsOf, hm]
            rw [step, ih acc, hcons]
      | otherItem =>
          have step : lastConstruct (ImplItem.otherItem :: rest) acc =
              lastConstruct rest acc := rfl
          rw [step, ih acc]
          simp [constructsOf]

lemma lastSet_eq_getLast (items : List ImplItem) :
    ∀ acc : Option Method,
      lastSet items acc =
        match (setsOf items).getLast? with
        | some m => some m
        | none => acc := by
  induction items with
  | nil => intro acc; simp [lastSet, setsOf]
  | cons item rest ih =>
      intro acc
      cases item with
      | const c =>
          have step : lastSet (ImplItem.const c :: rest) acc =
              lastSet rest acc := rfl
          rw [step, ih acc]
          simp [setsOf]
      | method m =>
          by_cases hm : m.name = "set"
          · have step : lastSet (ImplItem.method m :: rest) acc =
                lastSet rest (some m) := by
              simp [lastSet, hm]
            rw [step, ih (some m)]
            have hcons : setsOf (ImplItem.method m :: rest) =
                m :: setsOf rest := by
              simp [setsOf, hm]
            rw [hcons, List.getLast?_cons]
            cases (setsOf rest).getLast? <;> simp
          · have step : lastSet (ImplItem.method m :: rest) acc =
                lastSet rest acc := by
              simp [lastSet, hm]
            have hcons : setsOf (ImplItem.method m :: rest) = setsOf rest := by
              simp [setsOf, hm]
            rw [step, ih acc, hcons]
      | otherItem =>
          have step : lastSet (ImplItem.otherItem :: rest) acc =
              lastSet rest acc := rfl
          rw [step, ih acc]
          simp [setsOf]

/-- Full characterization of a successful expansion, in terms of the
declaration. -/
lemma expand_ok_parts (ib : ItemImpl) (e : Expanded) (h : expand ib = .ok e) :
    ∃ n sa s,
      parse_self ib.self_ty = .ok (n, sa)
      ∧ loopItems ib.self_ty n sa ib.items initState = .ok s
      ∧ e.moduleName = n ++ "_types"
      ∧ e.selfName = n
      ∧ e.selfArgs = sa
      ∧ e.rewritten = (constsOf ib.items).map (declRewritten sa)
      ∧ e.keyModules =
          (constsOf ib.items).map (declKeyModule ib.self_ty n sa)
      ∧ some e.construct = lastConstruct ib.items none
      ∧ e.set = (match lastSet ib.items none with
          | some m => SetImpl.explicit m
          | none =>
              SetImpl.generated (genStmts ((constsOf ib.items).map declProp))) := by
  simp only [expand] at h
  split at h
  · simp at h
  case _ n sa heqp =>
    split at h
    · simp at h
    case _ s heql =>
      obtain ⟨g1, g2, g3, g4, g5⟩ := loopItems_ok_char _ _ _ _ _ _ heql
      split at h
      · simp at h
      case _ construct heqc =>
        simp only [Except.ok.injEq] at h
        subst h
        refine ⟨n, sa, s, heqp, heql, rfl, rfl, rfl, ?_, ?_, ?_, ?_⟩
        · simpa [initState] using g1
        · simpa [initState] using g3
        · show some construct = lastConstruct ib.items none
          rw [← heqc, g4]; simp [initState]
        · show (match s.set with
            | some m => SetImpl.explicit m
            | none => SetImpl.generated (genStmts s.properties)) =
              (match lastSet ib.items none with
               | some m => SetImpl.explicit m
               | none =>
                   SetImpl.generated
                     (genStmts ((constsOf ib.items).map declProp)))
          rw [g5]
          have hi : initState.set = none := rfl
          rw [hi]
          cases hls : lastSet ib.items none <;>
            simp [g2, initState, hls]

/-! Spec-side reading of the named-argument policy, and the last declared
fold combinator of an attribute list. -/

/-- The named-argument name as the spec words it: the identifier with
every underscore replaced by a dash and then lowercased. -/
def specDashLower (s : String) : String :=
  String.mk (s.data.map fun c => (if c = '_' then '-' else c).toLower)

lemma lowercase_replace_eq_map (l : List Char) :
    lowercaseChars (replaceUnderscoreDash l) =
      l.map fun c => (if c = '_' then '-' else c).toLower := by
  induction l with
  | nil => rfl
  | cons c cs ih => simp [replaceUnderscoreDash, lowercaseChars, ih]

lemma setterString_eq_specDashLower (s : String) :
    setterString s = specDashLower s := by
  simp [setterString, specDashLower, lowercase_replace_eq_map]

/-- The last fold combinator declared among an attribute list (among the
fold attributes whose argument parses). -/
def lastFoldFn (attrs : List Attr) : Option (Val → Val → Val) :=
  attrs.foldl
    (fun a attr =>
      match attr with
      | .fold (some f) => some f
      | _ => a)
    none

lemma foldAcc_eq_map_lastFoldFn (attrs : List Attr) :
    ∀ (acc1 : Option Folder) (acc2 : Option (Val → Val → Val)),
      acc1 = acc2.map (fun f => ⟨true, fun i o => f i o⟩) →
      foldAcc attrs acc1 =
        (attrs.foldl
          (fun a attr =>
            match attr with
            | .fold (some f) => some f
            | _ => a)
          acc2).map (fun f => ⟨true, fun i o => f i o⟩) := by
  induction attrs with
  | nil => intro acc1 acc2 hacc; simpa [foldAcc] using hacc
  | cons a rest ih =>
      intro acc1 acc2 hacc
      cases a with
      | fold o =>
          cases o with
          | none => simpa [foldAcc] using ih _ _ hacc
          | some f =>
              have : foldAcc (Attr.fold (some f) :: rest) acc1 =
                  foldAcc rest (some ⟨true, fun i o => f i o⟩) := rfl
              rw [this, ih (some ⟨true, fun i o => f i o⟩) (some f) rfl]
              rfl
      | shorthand => simpa [foldAcc] using ih _ _ hacc
      | variadic => simpa [foldAcc] using ih _ _ hacc
      | skip => simpa [foldAcc] using ih _ _ hacc
      | otherAttr nm => simpa [foldAcc] using ih _ _ hacc

lemma lastFolder_eq_map (attrs : List Attr) :
    lastFolder attrs =
      (lastFoldFn attrs).map (fun f => ⟨true, fun i o => f i o⟩) :=
  foldAcc_eq_map_lastFoldFn attrs none none rfl

/-! Concrete declarations used as instantiation witnesses, and defaults
for reading results off a computed expansion. -/

instance : Inhabited Method := ⟨⟨"", 0⟩⟩

instance : Inhabited Expanded :=
  ⟨{ moduleName := "", selfName := "", selfArgs := [], rewritten := [],
     construct := ⟨"", 0⟩, set := SetImpl.explicit ⟨"", 0⟩,
     keyModules := [] }⟩

instance : Inhabited KeyModule :=
  ⟨{ name := "", keyArgs := (Ty.never, []), selfTy := Ty.never,
     propName := "", defaultVal := ⟨Ty.never, 0⟩, folder := none,
     nonfolding := true }⟩

/-- The expansion of a declaration, defaulting on failure. -/
def expOf (d : ItemImpl) : Expanded := (expand d).toOption.getD default

/-- The generated setter statements of an expansion, empty when the set
implementation is explicit. -/
def stmtsOf (e : Expanded) : List SetStmt :=
  match e.set with
  | SetImpl.explicit _ => []
  | SetImpl.generated stmts => stmts

/-- A plain path type named Para, used as a witness self type. -/
def paraTy : Ty := Ty.path ⟨"Para", PathArguments.noArgs⟩ []

/-- A plain path type named Float, used as a witness value type. -/
def floatTy : Ty := Ty.path ⟨"Float", PathArguments.noArgs⟩ []

/-- A plain path type named Color, used as a witness value type. -/
def colorTy : Ty := Ty.path ⟨"Color", PathArguments.noArgs⟩ []

/-- A witness construct method. -/
def constructM : Method := ⟨"construct", 0⟩

instance : Inhabited PropInfo :=
  ⟨{ name := "", shorthand := false, variadic := false, skip := false,
     valueTy := Ty.never }⟩

instance : Inhabited RewrittenConst :=
  ⟨{ ident := "", keptAttrs := [], tyModule := "",
     tyKeyArgs := (Ty.never, []) }⟩

/-! Claim C9. -/

/-- C9: decomposing the target-type header fails with the
MalformedSelfType diagnostic exactly when the header is not a simple
named-type path; for a path the parser succeeds and returns the name of
the last segment together with its generic type arguments. -/
theorem parse_self_spec (t : Ty) :
    (parse_self t = .error Err.malformedSelfType ↔ isPathTy t = false)
    ∧ (∀ (head : Segment) (tail : List Segment), t = Ty.path head tail →
        parse_self t =
          .ok ((tail.getLastD head).ident,
               typeArgsOf (tail.getLastD head).arguments)) := by
  constructor
  · cases t <;> simp [parse_self, isPathTy]
  · intro head tail ht
    subst ht
    rfl

/-- Instantiation of parse_self_spec: a single-segment path parses to its
name with no type arguments, and a non-path header is rejected. -/
theorem parse_self_spec_witness :
    parse_self (Ty.path ⟨"Para", PathArguments.noArgs⟩ []) = .ok ("Para", [])
    ∧ parse_self Ty.reference = .error Err.malformedSelfType :=
  ⟨(parse_self_spec (Ty.path ⟨"Para", PathArguments.noArgs⟩ [])).2
      ⟨"Para", PathArguments.noArgs⟩ [] rfl,
   (parse_self_spec Ty.reference).1.mpr rfl⟩

/-! Claim C3. -/

/-- C3: in the generated setter the statements cover the non-skipped
properties in declaration order, and the named-argument string of each
statement is the property identifier with every underscore replaced by a
dash and then lowercased. -/
theorem setter_named_string (d : ItemImpl) (e : Expanded)
    (stmts : List SetStmt)
    (h : expand d = .ok e) (hs : e.set = SetImpl.generated stmts) :
    stmts.map SetStmt.name =
      ((constsOf d.items).filter fun c => !(hasSkip c.attrs)).map ConstItem.ident
    ∧ ∀ st ∈ stmts, st.string = specDashLower st.name := by
  obtain ⟨n, sa, s, hp, hl, _, _, _, _, _, _, hset⟩ := expand_ok_parts d e h
  rw [hs] at hset
  rcases hls : lastSet d.items none with _ | m
  · rw [hls] at hset
    simp only [SetImpl.generated.injEq] at hset
    subst hset
    constructor
    · simp only [genStmts, List.filter_map, List.map_map]
      apply List.map_congr_left
      intro c _
      simp [Function.comp, genStmt, declProp]
    · intro st hmem
      simp only [genStmts, List.filter_map, List.map_map, List.mem_map] at hmem
      obtain ⟨c, _, hc⟩ := hmem
      subst hc
      simp [Function.comp, genStmt, setterString_eq_specDashLower]
  · rw [hls] at hset
    simp at hset

/-- A Para declaration with one property WIDTH: the lookup string of the
generated statement is width. -/
def widthConst : ConstItem :=
  { ident := "WIDTH", ty := floatTy, defaultVal := ⟨floatTy, 10⟩, attrs := [] }

/-- The witness declaration for the named-string claim. -/
def c3decl : ItemImpl :=
  { params := [], self_ty := paraTy,
    items := [ImplItem.const widthConst, ImplItem.method constructM] }

/-- Instantiation of setter_named_string on the Para WIDTH declaration:
the generated statement looks the named argument up under width. -/
theorem setter_named_string_witness :
    ((stmtsOf (expOf c3decl)).map SetStmt.name =
      ((constsOf c3decl.items).filter fun c => !(hasSkip c.attrs)).map
        ConstItem.ident
     ∧ ∀ st ∈ stmtsOf (expOf c3decl), st.string = specDashLower st.name)
    ∧ (stmtsOf (expOf c3decl)).map SetStmt.string = ["width"] := by
  refine ⟨setter_named_string c3decl (expOf c3decl)
      (stmtsOf (expOf c3decl)) rfl rfl, ?_⟩
  decide

/-! Claim C4. -/

/-- C4: for every processed property exactly one of two shapes is
generated. If a fold combinator was declared (the last one winning), the
key carries a fold block with FOLDING set to true whose fold function
invokes the declared combinator, and no Nonfolding implementation;
otherwise the key carries no fold block and implements the Nonfolding
marker. -/
theorem fold_key_shapes (c : ConstItem) (selfTy : Ty) (selfName : String)
    (selfArgs : List String) (p : PropInfo) (km : KeyModule)
    (rc : RewrittenConst)
    (h : process_const c selfTy selfName selfArgs = .ok (p, km, rc)) :
    (∀ f, lastFoldFn c.attrs = some f →
        km.folder = some ⟨true, fun i o => f i o⟩ ∧ km.nonfolding = false)
    ∧ (lastFoldFn c.attrs = none →
        km.folder = none ∧ km.nonfolding = true) := by
  obtain ⟨_, hkm, _⟩ := process_const_ok_char _ _ _ _ _ _ _ h
  subst hkm
  constructor
  · intro f hf
    have hfold : lastFolder c.attrs = some ⟨true, fun i o => f i o⟩ := by
      rw [lastFolder_eq_map, hf]; rfl
    exact ⟨by simp [declKeyModule, hfold], by simp [declKeyModule, hfold]⟩
  · intro hf
    have hfold : lastFolder c.attrs = none := by
      rw [lastFolder_eq_map, hf]; rfl
    exact ⟨by simp [declKeyModule, hfold], by simp [declKeyModule, hfold]⟩

/-- The scenario combinator: add the data of the two values. -/
def combineFn : Val → Val → Val := fun a b => ⟨a.ty, a.data + b.data⟩

/-- A property STRONG annotated with a fold combinator. -/
def strongConst : ConstItem :=
  { ident := "STRONG", ty := floatTy, defaultVal := ⟨floatTy, 0⟩,
    attrs := [Attr.fold (some combineFn)] }

/-- The processing result of the STRONG property. -/
def strongTriple : PropInfo × KeyModule × RewrittenConst :=
  (process_const strongConst paraTy "Para" []).toOption.getD default

/-- Instantiation of fold_key_shapes on STRONG: FOLDING is true and
fold of 3 and 4 is 7 under the adding combinator. -/
theorem fold_key_shapes_witness :
    ((∀ f, lastFoldFn strongConst.attrs = some f →
        strongTriple.2.1.folder = some ⟨true, fun i o => f i o⟩
          ∧ strongTriple.2.1.nonfolding = false)
     ∧ (lastFoldFn strongConst.attrs = none →
        strongTriple.2.1.folder = none ∧ strongTriple.2.1.nonfolding = true))
    ∧ (strongTriple.2.1.folder.map fun fo =>
          fo.fn ⟨floatTy, 3⟩ ⟨floatTy, 4⟩) = some ⟨floatTy, 7⟩
    ∧ (strongTriple.2.1.folder.map Folder.folding) = some true :=
  ⟨fold_key_shapes strongConst paraTy "Para" []
      strongTriple.1 strongTriple.2.1 strongTriple.2.2 rfl, rfl, rfl⟩

/-! Claim C1. -/

/-- C1: two distinct property identifiers of one class declaration yield
key types that are distinct and not interchangeable, whatever their value
types and defaults: each Key type is emitted in its own per-property
module, named after the property identifier, inside the owner-derived
wrapper module, so the generated type paths never coincide. -/
theorem key_types_distinct (d : ItemImpl) (e : Expanded)
    (h : expand d = .ok e) (i j : Nat) (ci cj : ConstItem)
    (hci : (constsOf d.items)[i]? = some ci)
    (hcj : (constsOf d.items)[j]? = some cj)
    (hne : ci.ident ≠ cj.ident) :
    e.keyModules[i]?.map KeyModule.name = some ci.ident
    ∧ e.keyModules[j]?.map KeyModule.name = some cj.ident
    ∧ e.keyModules[i]?.map (keyPath e) ≠ e.keyModules[j]?.map (keyPath e) := by
  obtain ⟨n, sa, s, hp, hl, hmod, hsn, hsa2, hrw, hkm, hcon, hset⟩ :=
    expand_ok_parts d e h
  rw [hkm, List.getElem?_map, List.getElem?_map, hci, hcj]
  refine ⟨rfl, rfl, ?_⟩
  simp [keyPath, declKeyModule, hne]

/-- A property A of Para. -/
def aConst : ConstItem :=
  { ident := "A", ty := floatTy, defaultVal := ⟨floatTy, 0⟩, attrs := [] }

/-- A property B of Para with the same value type and default as A. -/
def bConst : ConstItem :=
  { ident := "B", ty := floatTy, defaultVal := ⟨floatTy, 0⟩, attrs := [] }

/-- The witness declaration with two same-typed properties. -/
def c1decl : ItemImpl :=
  { params := [], self_ty := paraTy,
    items := [ImplItem.const aConst, ImplItem.const bConst,
              ImplItem.method constructM] }

/-- Instantiation of key_types_distinct: A and B of Para share value type
and default yet get different key paths. -/
theorem key_types_distinct_witness :
    (expOf c1decl).keyModules[0]?.map KeyModule.name = some aConst.ident
    ∧ (expOf c1decl).keyModules[1]?.map KeyModule.name = some bConst.ident
    ∧ (expOf c1decl).keyModules[0]?.map (keyPath (expOf c1decl))
        ≠ (expOf c1decl).keyModules[1]?.map (keyPath (expOf c1decl)) :=
  key_types_distinct c1decl (expOf c1decl) rfl 0 1 aConst bConst rfl rfl
    (by decide)

/-! Claim C5, corrected: the conflict diagnostic is raised only when the
attribute loop of that property completes, so a fold attribute with an
unparseable argument on the same property preempts it. -/

/-- C5 counterexample input: a property carrying an unparseable fold
attribute together with shorthand and variadic. -/
def c5const : ConstItem :=
  { ident := "A", ty := floatTy, defaultVal := ⟨floatTy, 0⟩,
    attrs := [Attr.fold none, Attr.shorthand, Attr.variadic] }

/-- The counterexample declaration for the conflict claim. -/
def c5decl : ItemImpl :=
  { params := [], self_ty := paraTy,
    items := [ImplItem.const c5const, ImplItem.method constructM] }

/-- C5 counterexample: a declaration whose property carries both
shorthand and variadic, plus a fold attribute whose argument fails to
parse, fails with the fold parse error and not with
ConflictingAttributes. -/
theorem conflicting_attrs_cex :
    Attr.shorthand ∈ c5const.attrs ∧ Attr.variadic ∈ c5const.attrs
    ∧ expand c5decl = .error Err.attrParse
    ∧ Err.attrParse ≠ Err.conflictingAttributes := by
  refine ⟨?_, ?_, rfl, by decide⟩
  · simp [c5const]
  · simp [c5const]

/-- C5 (amended): a declaration in which one property carries both the
shorthand and the variadic attribute fails with ConflictingAttributes,
provided expansion reaches the conflict check of that property: the
header parses, all earlier items process without error, and every fold
attribute of the property parses. -/
theorem conflicting_attrs_amended (d : ItemImpl) (n : String)
    (sa : List String) (pre rest : List ImplItem) (s1 : LoopState)
    (c : ConstItem)
    (hparse : parse_self d.self_ty = .ok (n, sa))
    (hpre : loopItems d.self_ty n sa pre initState = .ok s1)
    (hitems : d.items = pre ++ ImplItem.const c :: rest)
    (hsh : hasShorthand c.attrs = true) (hva : hasVariadic c.attrs = true)
    (hgood : ∀ a ∈ c.attrs, a.isBadFold = false) :
    expand d = .error Err.conflictingAttributes := by
  have hconf := process_const_conflict c d.self_ty n sa hsh hva hgood
  simp only [expand, hparse, hitems, loopItems_append, hpre]
  simp [loopItems, hconf]

/-- A property carrying shorthand and variadic with parseable attributes
only. -/
def c5wConst : ConstItem :=
  { ident := "B", ty := floatTy, defaultVal := ⟨floatTy, 0⟩,
    attrs := [Attr.shorthand, Attr.variadic] }

/-- The witness declaration for the amended conflict claim. -/
def c5wDecl : ItemImpl :=
  { params := [], self_ty := paraTy,
    items := [ImplItem.const c5wConst, ImplItem.method constructM] }

/-- Instantiation of conflicting_attrs_amended on a shorthand plus
variadic property with no other attributes. -/
theorem conflicting_attrs_amended_witness :
    expand c5wDecl = .error Err.conflictingAttributes :=
  conflicting_attrs_amended c5wDecl "Para" [] []
    [ImplItem.method constructM] initState c5wConst
    rfl rfl rfl rfl rfl
    (by intro a ha; simp [c5wConst] at ha; rcases ha with h | h <;> subst h <;> rfl)

/-! Claim C6. -/

/-- C6: a declaration containing property constants and a set method but
no construct method fails with MissingConstructor, provided the header
parses and every item processes without error. -/
theorem missing_constructor_error (d : ItemImpl) (n : String)
    (sa : List String) (s : LoopState)
    (hparse : parse_self d.self_ty = .ok (n, sa))
    (hloop : loopItems d.self_ty n sa d.items initState = .ok s)
    (hconsts : constsOf d.items ≠ [])
    (hset : setsOf d.items ≠ [])
    (hnocon : constructsOf d.items = []) :
    expand d = .error Err.missingConstructor := by
  obtain ⟨_, _, _, g4, _⟩ := loopItems_ok_char _ _ _ _ _ _ hloop
  have hnone : s.construct = none := by
    rw [g4, lastConstruct_eq_getLast, hnocon]
    rfl
  simp only [expand, hparse, hloop, hnone]

/-- A set method item used in witnesses. -/
def setM : Method := ⟨"set", 1⟩

/-- The witness declaration with a property and a set method but no
construct method. -/
def c6decl : ItemImpl :=
  { params := [], self_ty := paraTy,
    items := [ImplItem.const widthConst, ImplItem.method setM] }

/-- Instantiation of missing_constructor_error. -/
theorem missing_constructor_error_witness :
    expand c6decl = .error Err.missingConstructor :=
  missing_constructor_error c6decl "Para" []
    ((loopItems c6decl.self_ty "Para" [] c6decl.items initState).toOption.getD
      initState)
    rfl rfl (by simp [c6decl, constsOf, widthConst])
    (by simp [c6decl, setsOf, setM]) rfl

/-! Claim C7. -/

/-- C7: an item that is a method named neither construct nor set makes
expansion fail with UnexpectedMethod, and an item that is neither a
const nor a method makes it fail with UnexpectedItem, provided expansion
reaches the item (the header parses and all earlier items process without
error). -/
theorem unexpected_item_error (d : ItemImpl) (n : String) (sa : List String)
    (pre rest : List ImplItem) (s1 : LoopState) (item : ImplItem)
    (hparse : parse_self d.self_ty = .ok (n, sa))
    (hpre : loopItems d.self_ty n sa pre initState = .ok s1)
    (hitems : d.items = pre ++ item :: rest)
    (hbad : isBadItem item = true) :
    expand d = .error (unexpectedErrOf item) := by
  simp only [expand, hparse, hitems, loopItems_append, hpre]
  cases item with
  | const c => simp [isBadItem] at hbad
  | method m =>
      simp only [isBadItem, Bool.not_eq_true', Bool.or_eq_false_iff,
        decide_eq_false_iff_not] at hbad
      simp [loopItems, hbad.1, hbad.2, unexpectedErrOf]
  | otherItem => simp [loopItems, unexpectedErrOf]

/-- A method with an unrecognized name. -/
def frobM : Method := ⟨"frobnicate", 7⟩

/-- The witness declaration containing an unexpected method. -/
def c7decl : ItemImpl :=
  { params := [], self_ty := paraTy,
    items := [ImplItem.method constructM, ImplItem.method frobM] }

/-- Instantiation of unexpected_item_error on a method named
frobnicate. -/
theorem unexpected_item_error_witness :
    expand c7decl = .error (unexpectedErrOf (ImplItem.method frobM)) :=
  unexpected_item_error c7decl "Para" [] [ImplItem.method constructM] []
    { initState with construct := some constructM } (ImplItem.method frobM)
    rfl rfl rfl rfl

/-! Claim C8, corrected: an attribute-processing failure does abort the
expansion of the whole declaration, exactly like a parser-level failure;
no key module of any property of the declaration is emitted. -/

/-- A property with an unparseable fold attribute. -/
def c8badConst : ConstItem :=
  { ident := "A", ty := floatTy, defaultVal := ⟨floatTy, 0⟩,
    attrs := [Attr.fold none] }

/-- A perfectly healthy property declared after the failing one. -/
def c8goodConst : ConstItem :=
  { ident := "B", ty := floatTy, defaultVal := ⟨floatTy, 1⟩, attrs := [] }

/-- The counterexample declaration for the failure-propagation claim. -/
def c8decl : ItemImpl :=
  { params := [], self_ty := paraTy,
    items := [ImplItem.const c8badConst, ImplItem.const c8goodConst,
              ImplItem.method constructM] }

/-- C8 counterexample: the attribute failure of property A does not abort
only the expansion of A: the whole declaration fails and no output (in
particular no key module for the healthy property B) is produced. -/
theorem attr_failure_cex :
    expand c8decl = .error Err.attrParse
    ∧ (expand c8decl).toOption = none := ⟨rfl, rfl⟩

/-- C8 (amended): an attribute-processing failure of one property is
surfaced immediately and no partial key is emitted for it, and it aborts
the expansion of the whole declaration, exactly as a parser-level failure
does: whenever a reachable property carries a fold attribute whose
argument does not parse, the expansion of the declaration yields that
error and nothing else. -/
theorem attr_failure_aborts (d : ItemImpl) (n : String) (sa : List String)
    (pre rest : List ImplItem) (s1 : LoopState) (c : ConstItem)
    (hparse : parse_self d.self_ty = .ok (n, sa))
    (hpre : loopItems d.self_ty n sa pre initState = .ok s1)
    (hitems : d.items = pre ++ ImplItem.const c :: rest)
    (hbad : ∃ a ∈ c.attrs, a.isBadFold = true) :
    expand d = .error Err.attrParse := by
  have herr := process_const_badFold c d.self_ty n sa hbad
  simp only [expand, hparse, hitems, loopItems_append, hpre]
  simp [loopItems, herr]

/-- Instantiation of attr_failure_aborts on the counterexample
declaration. -/
theorem attr_failure_aborts_witness :
    expand c8decl = .error Err.attrParse :=
  attr_failure_aborts c8decl "Para" [] []
    [ImplItem.const c8goodConst, ImplItem.method constructM] initState
    c8badConst rfl rfl rfl
    ⟨Attr.fold none, by simp [c8badConst], rfl⟩

/-! Claim C10. -/

/-- C10: duplicate construct or set methods raise no error: expansion
succeeds, the last method named construct in item order is the one
emitted into the Construct implementation, and when any method named set
occurs, the last one is the emitted Set implementation. -/
theorem duplicate_methods_last_wins (d : ItemImpl) (n : String)
    (sa : List String) (s : LoopState) (c : Method)
    (hparse : parse_self d.self_ty = .ok (n, sa))
    (hloop : loopItems d.self_ty n sa d.items initState = .ok s)
    (hc : s.construct = some c) :
    (expand d).toOption.map Expanded.construct = (constructsOf d.items).getLast?
    ∧ ∀ m, (setsOf d.items).getLast? = some m →
        (expand d).toOption.map Expanded.set = some (SetImpl.explicit m) := by
  obtain ⟨_, _, _, g4, g5⟩ := loopItems_ok_char _ _ _ _ _ _ hloop
  have hgl : (constructsOf d.items).getLast? = some c := by
    rw [g4, lastConstruct_eq_getLast] at hc
    rcases hx : (constructsOf d.items).getLast? with _ | m
    · rw [hx] at hc; simpa [initState] using hc
    · rw [hx] at hc; simpa using hc
  constructor
  · simp only [expand, hparse, hloop, hc, hgl]
    rfl
  · intro m hm
    have hsets : s.set = some m := by
      rw [g5, lastSet_eq_getLast, hm]
    simp only [expand, hparse, hloop, hc, hsets]
    rfl

/-- A second construct method with a different body. -/
def constructM2 : Method := ⟨"construct", 5⟩

/-- A second set method with a different body. -/
def setM2 : Method := ⟨"set", 6⟩

/-- The witness declaration with duplicate construct and set methods. -/
def c10decl : ItemImpl :=
  { params := [], self_ty := paraTy,
    items := [ImplItem.method constructM, ImplItem.method setM,
              ImplItem.method constructM2, ImplItem.method setM2] }

/-- Instantiation of duplicate_methods_last_wins: with two construct and
two set methods, expansion succeeds and the later ones win. -/
theorem duplicate_methods_last_wins_witness :
    ((expand c10decl).toOption.map Expanded.construct =
        (constructsOf c10decl.items).getLast?
      ∧ ∀ m, (setsOf c10decl.items).getLast? = some m →
          (expand c10decl).toOption.map Expanded.set =
            some (SetImpl.explicit m))
    ∧ (expand c10decl).toOption.map Expanded.construct = some constructM2
    ∧ (expand c10decl).toOption.map Expanded.set =
        some (SetImpl.explicit setM2) :=
  ⟨duplicate_methods_last_wins c10decl "Para" []
      { initState with construct := some constructM2, set := some setM2 }
      constructM2 rfl rfl rfl,
   rfl, rfl⟩

/-! Claim C2: resolution behavior of one generated setter statement. -/

lemma runStmt_named_hit (args : Args) (styles : StyleMap) (st : SetStmt)
    (v : Val) (hv : args.namedLookup st.string = some v) :
    runStmt args styles st =
      (args, styles ++ [(st.name, StyleVal.single v)]) := by
  simp [runStmt, hv, StyleMap.setOpt]

lemma runStmt_variadic_miss (args : Args) (styles : StyleMap) (st : SetStmt)
    (hn : args.namedLookup st.string = none)
    (ha : st.alt = SetAlt.variadicAlt) :
    runStmt args styles st =
      ({ args with positional := [] },
       if args.positional.isEmpty then styles
       else styles ++ [(st.name, StyleVal.seq args.positional)]) := by
  simp only [runStmt, hn, ha, Args.takeAll]
  by_cases hp : args.positional.isEmpty <;>
    simp [hp, StyleMap.setOpt]

lemma runStmt_shorthand_miss (args : Args) (styles : StyleMap) (st : SetStmt)
    (t : Ty) (hn : args.namedLookup st.string = none)
    (ha : st.alt = SetAlt.shorthandAlt t) :
    runStmt args styles st =
      ({ args with positional := (findFirstOfTy args.positional t).2 },
       styles.setOpt st.name
         ((findFirstOfTy args.positional t).1.map StyleVal.single)) := by
  simp [runStmt, hn, ha, Args.findOfTy]

lemma runStmt_plain_miss (args : Args) (styles : StyleMap) (st : SetStmt)
    (hn : args.namedLookup st.string = none) (ha : st.alt = SetAlt.plain) :
    runStmt args styles st = (args, styles) := by
  simp [runStmt, hn, ha, StyleMap.setOpt]

/-- C2: when no explicit set method is supplied, the generated setter
consists of one statement per non-skipped property, in declaration
order, and each statement resolves in this order: the named argument
first; on a miss, a variadic property collects all remaining positional
arguments and uses them only if nonempty; on a miss, a shorthand
property extracts the first positional argument of its value type; the
resolved value, if any, is written under the key of the property, and a
missing value is a no-op, never an error. -/
theorem generated_setter_resolution (d : ItemImpl) (e : Expanded)
    (stmts : List SetStmt)
    (h : expand d = .ok e) (hs : e.set = SetImpl.generated stmts) :
    stmts = ((constsOf d.items).filter fun c => !(hasSkip c.attrs)).map
        (fun c => genStmt (declProp c))
    ∧ ∀ st ∈ stmts, ∀ (args : Args) (styles : StyleMap),
        (∀ v, args.namedLookup st.string = some v →
            runStmt args styles st =
              (args, styles ++ [(st.name, StyleVal.single v)]))
        ∧ (args.namedLookup st.string = none →
            st.alt = SetAlt.variadicAlt →
            runStmt args styles st =
              ({ args with positional := [] },
               if args.positional.isEmpty then styles
               else styles ++ [(st.name, StyleVal.seq args.positional)]))
        ∧ (∀ t, args.namedLookup st.string = none →
            st.alt = SetAlt.shorthandAlt t →
            runStmt args styles st =
              ({ args with positional := (findFirstOfTy args.positional t).2 },
               styles.setOpt st.name
                 ((findFirstOfTy args.positional t).1.map StyleVal.single)))
        ∧ (args.namedLookup st.string = none → st.alt = SetAlt.plain →
            runStmt args styles st = (args, styles)) := by
  obtain ⟨n, sa, s, hp, hl, _, _, _, _, _, _, hset⟩ := expand_ok_parts d e h
  rw [hs] at hset
  constructor
  · rcases hls : lastSet d.items none with _ | m
    · rw [hls] at hset
      simp only [SetImpl.generated.injEq] at hset
      subst hset
      simp only [genStmts, List.filter_map, List.map_map]
      rfl
    · rw [hls] at hset
      simp at hset
  · intro st _ args styles
    refine ⟨?_, ?_, ?_, ?_⟩
    · intro v hv; exact runStmt_named_hit args styles st v hv
    · intro hn ha; exact runStmt_variadic_miss args styles st hn ha
    · intro t hn ha; exact runStmt_shorthand_miss args styles st t hn ha
    · intro hn ha; exact runStmt_plain_miss args styles st hn ha

/-- A variadic property GAP of Para. -/
def gapConst : ConstItem :=
  { ident := "GAP", ty := floatTy, defaultVal := ⟨floatTy, 0⟩,
    attrs := [Attr.variadic] }

/-- A shorthand property FILL of Para. -/
def fillConst : ConstItem :=
  { ident := "FILL", ty := colorTy, defaultVal := ⟨colorTy, 0⟩,
    attrs := [Attr.shorthand] }

/-- The witness declaration with a variadic and a shorthand property. -/
def c2decl : ItemImpl :=
  { params := [], self_ty := paraTy,
    items := [ImplItem.const gapConst, ImplItem.const fillConst,
              ImplItem.method constructM] }

/-- The generated statement of the GAP property. -/
def gapStmt : SetStmt := genStmt (declProp gapConst)

/-- The generated statement of the FILL property. -/
def fillStmt : SetStmt := genStmt (declProp fillConst)

/-- Two positional float values. -/
def v1 : Val := ⟨floatTy, 1⟩

/-- A second positional float value. -/
def v2 : Val := ⟨floatTy, 2⟩

/-- A positional color value. -/
def colorVal : Val := ⟨colorTy, 9⟩

/-- Instantiation of generated_setter_resolution, with the two setter
scenarios: the GAP statement, given no named gap entry and two unnamed
positional entries, stores the two-element sequence under the GAP key;
the FILL statement, given a positional argument of the FILL value type
and no named fill entry, stores that value under the FILL key. -/
theorem generated_setter_resolution_witness :
    (stmtsOf (expOf c2decl) =
        ((constsOf c2decl.items).filter fun c => !(hasSkip c.attrs)).map
          (fun c => genStmt (declProp c))
     ∧ ∀ st ∈ stmtsOf (expOf c2decl), ∀ (args : Args) (styles : StyleMap),
        (∀ v, args.namedLookup st.string = some v →
            runStmt args styles st =
              (args, styles ++ [(st.name, StyleVal.single v)]))
        ∧ (args.namedLookup st.string = none →
            st.alt = SetAlt.variadicAlt →
            runStmt args styles st =
              ({ args with positional := [] },
               if args.positional.isEmpty then styles
               else styles ++ [(st.name, StyleVal.seq args.positional)]))
        ∧ (∀ t, args.namedLookup st.string = none →
            st.alt = SetAlt.shorthandAlt t →
            runStmt args styles st =
              ({ args with positional := (findFirstOfTy args.positional t).2 },
               styles.setOpt st.name
                 ((findFirstOfTy args.positional t).1.map StyleVal.single)))
        ∧ (args.namedLookup st.string = none → st.alt = SetAlt.plain →
            runStmt args styles st = (args, styles)))
    ∧ runStmt ⟨[], [v1, v2]⟩ [] gapStmt =
        (⟨[], []⟩, [("GAP", StyleVal.seq [v1, v2])])
    ∧ runStmt ⟨[], [colorVal]⟩ [] fillStmt =
        (⟨[], []⟩, [("FILL", StyleVal.single colorVal)]) :=
  ⟨generated_setter_resolution c2decl (expOf c2decl)
      (stmtsOf (expOf c2decl)) rfl rfl,
   rfl, rfl⟩

end ClassGen
